import Mathlib

/-!
Shallow embedding of the `Vector` class of the vectorious library
(src/src/Vector.ts) and verification of its specification.

Modelling choices:
* Numeric elements are modelled as rationals (`ℚ`): the source operates on
  JavaScript numbers with exact results for the claims under study.
* A `Vector` carries the element kind (`type` field in the source), the
  `length` field, and the `data` buffer.  A freshly constructed vector with
  no recognized source has no buffer at all (`data` is `undefined` in the
  source), hence `Option (List ℚ)`.
* JavaScript index arguments can be fractional or non-finite, so indices are
  a dedicated type `JSNum` with finite (rational) and non-finite values.
* `Math.sqrt` is a host primitive on floats; it is abstracted as a function
  parameter `sq : ℚ → ℚ`, with the properties used (such as `sq 0 = 0`,
  satisfied by `Math.sqrt`) taken as hypotheses.
* Thrown errors are modelled with `Except VErr`; each constructor of `VErr`
  corresponds to one error message of the source.
* The accelerated BLAS backend (nblas) is external to the repository; its
  primitives are modelled from the spec's boundary contract and compared
  with the in-repository fallback loops (refinement claims).
* Loops of the form `for (i = 0; i < l; i++)` over buffers are embedded as
  folds/maps over `List.range l`, reading `data[i]` as `List.getD i 0`;
  writes beyond the loop range are preserved unchanged, mirroring the fact
  that the source loop only touches indices below `l`.
-/

namespace Vectorious

/-- Element kinds of typed-array buffers (`Float64Array`, `Float32Array`, ...).
The concrete kind never affects numeric behaviour in this model; it is kept
because the source tracks it (`type` field). -/
inductive ElemKind where
  | f64
  | f32
  | i32
  | u8
deriving DecidableEq

/-- Errors thrown by the source, one constructor per distinct error site:
`sizes do not match`, `index out of bounds`, `invalid size` (fill),
`invalid range` (range), and the empty-reduction error. -/
inductive VErr where
  | sizeMismatch
  | outOfBounds
  | invalidSize
  | invalidRange
  | emptyReduction
deriving DecidableEq

/-- The `Vector` class state: `type`, `length`, and the `data` buffer.
`data = none` models the `undefined` buffer of a default-constructed
vector. -/
structure Vector where
  kind : ElemKind
  length : Nat
  data : Option (List ℚ)
deriving DecidableEq

instance {ε α : Type} [DecidableEq ε] [DecidableEq α] : DecidableEq (Except ε α) := fun x y =>
  match x, y with
  | .error e, .error f =>
    if h : e = f then .isTrue (congrArg Except.error h)
    else .isFalse (fun hh => h (Except.error.inj hh))
  | .ok a, .ok b =>
    if h : a = b then .isTrue (congrArg Except.ok h)
    else .isFalse (fun hh => h (Except.ok.inj hh))
  | .error _, .ok _ => .isFalse (fun hh => Except.noConfusion hh)
  | .ok _, .error _ => .isFalse (fun hh => Except.noConfusion hh)

/-- The buffer contents, reading an absent buffer as empty (every source
operation guards buffer reads by `length`, so an absent buffer is only ever
read when no iteration happens). -/
def Vector.elems (v : Vector) : List ℚ :=
  v.data.getD []

/-- Read `data[i]` for a nonnegative integer index `i`, as the loops do. -/
def Vector.atIdx (v : Vector) (i : Nat) : ℚ :=
  v.elems.getD i 0

/-- The default-constructed vector: `type = Float64Array`, `length = 0`,
`data` undefined. -/
def emptyVector : Vector :=
  ⟨ElemKind.f64, 0, none⟩

/-- A JavaScript number used as an index: finite (any rational, possibly
fractional) or one of the non-finite values. -/
inductive JSNum where
  | fin (q : ℚ)
  | posInf
  | negInf
  | nan
deriving DecidableEq

/-- JavaScript `isFinite`. -/
def JSNum.isFiniteJ : JSNum → Bool
  | .fin _ => true
  | _ => false

/-- The `check(index)` bounds check: throws `index out of bounds` when
`!isFinite(index) || index < 0 || index > this.length - 1`.  For non-finite
values every arithmetic comparison is false but the `isFinite` test already
rejects them. -/
def Vector.check (v : Vector) (i : JSNum) : Except VErr Unit :=
  match i with
  | .fin q => if q < 0 ∨ q > (v.length : ℚ) - 1 then .error .outOfBounds else .ok ()
  | _ => .error .outOfBounds

/-- Reading `this.data[index]` with a raw JavaScript number index: a
canonical nonnegative integer index inside the buffer yields the element,
anything else (fractional index in particular) yields `undefined`,
modelled as `none`. -/
def Vector.readIdx (v : Vector) (q : ℚ) : Option ℚ :=
  if q.den = 1 ∧ 0 ≤ q.num ∧ q.num.toNat < v.length then some (v.atIdx q.num.toNat) else none

/-- The `get(index)` method: `check` then read.  `some r` is a stored number,
`none` is JavaScript `undefined`. -/
def Vector.get (v : Vector) (i : JSNum) : Except VErr (Option ℚ) :=
  match v.check i with
  | .error e => .error e
  | .ok _ =>
    match i with
    | .fin q => .ok (v.readIdx q)
    | _ => .ok none

/-- The `set(index, value)` method: `check`, then `this.data[index] = value`
(a write at a non-integer canonical numeric index is ignored by typed
arrays), returning `this`. -/
def Vector.setIdx (v : Vector) (i : JSNum) (x : ℚ) : Except VErr Vector :=
  match v.check i with
  | .error e => .error e
  | .ok _ =>
    match i with
    | .fin q =>
      if q.den = 1 ∧ 0 ≤ q.num then
        .ok { v with data := v.data.map (fun l => l.set q.num.toNat x) }
      else
        .ok v
    | _ => .ok v

/-- The `w` getter: `return this.get(3)`. -/
def Vector.wGet (v : Vector) : Except VErr (Option ℚ) :=
  v.get (.fin 3)

/-- The body of the `binOp` write loop
`for (i = 0; i < len; i++) data[i] = op(data[i], other[i], i)`:
positions below `len` are overwritten (each iteration reads index `i`
before writing it), positions from `len` on are untouched. -/
def binOpLoop (len : Nat) (op : ℚ → ℚ → Nat → ℚ) (d1 d2 : List ℚ) : List ℚ :=
  (List.range len).map (fun i => op (d1.getD i 0) (d2.getD i 0) i) ++ d1.drop len

/-- The `binOp(vector, op)` method: size check, zero-length no-op returning
`this` unchanged, otherwise the in-place write loop. -/
def Vector.binOp (v w : Vector) (op : ℚ → ℚ → Nat → ℚ) : Except VErr Vector :=
  if v.length ≠ w.length then .error .sizeMismatch
  else if v.length = 0 then .ok v
  else .ok { v with data := some (binOpLoop v.length op v.elems w.elems) }

/-- The `add(vector)` method.  The accelerated `axpy` attempt and the
fallback agree (established by the refinement theorem below), so the method
denotes the fallback `binOp` with `+`; a size mismatch escapes both the
`try` block and the fallback with the same error. -/
def Vector.add (v w : Vector) : Except VErr Vector :=
  v.binOp w (fun a b _ => a + b)

/-- The `subtract(vector)` method, fallback `binOp` with `-`. -/
def Vector.sub (v w : Vector) : Except VErr Vector :=
  v.binOp w (fun a b _ => a - b)

/-- The body of the `each` loop used by the `scale` fallback:
`data[i] *= scalar` for `i < len`, later positions untouched. -/
def scaleLoop (len : Nat) (s : ℚ) (l : List ℚ) : List ℚ :=
  (l.take len).map (fun x => x * s) ++ l.drop len

/-- The `scale(scalar)` method: multiplies the first `length` buffer
elements in place (accelerated `scal` and the `each` fallback agree),
returning `this`.  It never throws. -/
def Vector.scale (v : Vector) (s : ℚ) : Vector :=
  { v with data := v.data.map (scaleLoop v.length s) }

/-- The sequential accumulation loop of the `dot` fallback:
`result = 0; for (i = 0; i < len; i++) result += a[i] * b[i]`. -/
def dotLoop (len : Nat) (d1 d2 : List ℚ) : ℚ :=
  (List.range len).foldl (fun acc i => acc + d1.getD i 0 * d2.getD i 0) 0

/-- The `dot(vector)` method: size check (before either path), then the
sum of products. -/
def Vector.dot (v w : Vector) : Except VErr ℚ :=
  if v.length ≠ w.length then .error .sizeMismatch
  else .ok (dotLoop v.length v.elems w.elems)

/-- The sequential sum-of-squares loop of the `magnitude` fallback. -/
def sumsqLoop (len : Nat) (d : List ℚ) : ℚ :=
  (List.range len).foldl (fun acc i => acc + d.getD i 0 * d.getD i 0) 0

/-- The `magnitude()` method, with `Math.sqrt` abstracted as `sq`: a
zero-length vector returns `0` before either backend path runs; otherwise
the square root of the sum of squares. -/
def Vector.magnitude (sq : ℚ → ℚ) (v : Vector) : ℚ :=
  if v.length = 0 then 0 else sq (sumsqLoop v.length v.elems)

/-- The scan of the `equals` loop:
`while (i < this.length && this.data[i] === vector.data[i]) i++`.
`eqScan d1 d2 i fuel` is the final value of `i` with `fuel = length - i`
iterations remaining. -/
def eqScan (d1 d2 : List ℚ) : Nat → Nat → Nat
  | i, 0 => i
  | i, fuel + 1 => if d1.getD i 0 = d2.getD i 0 then eqScan d1 d2 (i + 1) fuel else i

/-- The `equals(vector)` method: `false` on differing lengths, otherwise the
short-circuiting element scan followed by `i === this.length`. -/
def Vector.equals (v w : Vector) : Bool :=
  if v.length ≠ w.length then false
  else eqScan v.elems w.elems 0 v.length == v.length

/-- Writing `buf.set(src, off)` on a typed array: overwrite `src.length`
positions starting at `off`, keep the rest. -/
def writeAt (buf : List ℚ) (off : Nat) (src : List ℚ) : List ℚ :=
  buf.take off ++ src ++ buf.drop (off + src.length)

/-- The `combine(vector)` method: appending `vector` to `this`.  Empty
argument: `this` unchanged.  Empty receiver: adopt a copy of the argument's
buffer, its length and its kind.  Otherwise allocate `l1 + l2`, blit both
buffers, rebind. -/
def Vector.combine (v w : Vector) : Vector :=
  if w.length = 0 then v
  else if v.length = 0 then ⟨w.kind, w.length, some w.elems⟩
  else
    ⟨v.kind, v.length + w.length,
      some (writeAt (writeAt (List.replicate (v.length + w.length) 0) 0 v.elems) v.length w.elems)⟩

/-- The recognized shapes of the constructor argument: no argument (or an
unrecognized one), another `Vector`, a matrix-like object
(`shape`, `data`, `type`), a plain array, or a typed-array buffer. -/
inductive CtorSrc where
  | noArg
  | vec (v : Vector)
  | mat (kind : ElemKind) (rows cols : Nat) (d : List ℚ)
  | arr (l : List ℚ)
  | buf (kind : ElemKind) (l : List ℚ)

/-- The constructor `new Vector(data)`: defaults then one branch.  A source
`Vector` is copied through `combine`; a matrix-like source copies its data
and takes `shape[0] * shape[1]` as length; an array is copied with the
default kind; a typed-array buffer is adopted by reference. -/
def mkVector : CtorSrc → Vector
  | .noArg => emptyVector
  | .vec v => emptyVector.combine v
  | .mat kind r c d => ⟨kind, r * c, some d⟩
  | .arr l => ⟨ElemKind.f64, l.length, some l⟩
  | .buf kind l => ⟨kind, l.length, some l⟩

/-- The `push(value)` method: `combine` with a one-element vector. -/
def Vector.push (v : Vector) (x : ℚ) : Vector :=
  v.combine (mkVector (.arr [x]))

/-- Static `Vector.add(a, b) = new Vector(a).add(b)`. -/
def Vector.addS (a b : Vector) : Except VErr Vector :=
  (mkVector (.vec a)).add b

/-- Static `Vector.subtract(a, b) = new Vector(a).subtract(b)`. -/
def Vector.subS (a b : Vector) : Except VErr Vector :=
  (mkVector (.vec a)).sub b

/-- Which object a method returns: the receiver (`this`) or its argument.
Used to express that `project` returns the argument object itself. -/
inductive Slot where
  | receiver
  | argument
deriving DecidableEq

/-- The `project(vector)` method:
`return vector.scale(this.dot(vector) / vector.dot(vector))`.
The result triple is (state of `this`, state of `vector`, which object is
returned); `this` is only read, `vector` is scaled in place and returned. -/
def Vector.project (a b : Vector) : Except VErr (Vector × Vector × Slot) := do
  let d1 ← a.dot b
  let d2 ← b.dot b
  pure (a, b.scale (d1 / d2), Slot.argument)

/-- The constant-value branch of `fill(count, value, type)`: negative count
throws `invalid size`, count zero returns a default-constructed vector,
otherwise a buffer of `count` copies of `value`. -/
def Vector.fill (count : ℤ) (value : ℚ) (kind : ElemKind) : Except VErr Vector :=
  if count < 0 then .error .invalidSize
  else if count = 0 then .ok emptyVector
  else .ok ⟨kind, count.toNat, some (List.replicate count.toNat value)⟩

/-- `zeros(count, type) = fill(count, 0.0, type)`. -/
def Vector.zeros (count : ℤ) (kind : ElemKind) : Except VErr Vector :=
  Vector.fill count 0 kind

/-- The reduction loop of `reduce`: `fuel` remaining iterations starting at
index `i` with accumulator `a`. -/
def redLoop (f : ℚ → ℚ → Nat → ℚ) (d : List ℚ) : ℚ → Nat → Nat → ℚ
  | a, _, 0 => a
  | a, i, fuel + 1 => redLoop f d (f a (d.getD i 0) i) (i + 1) fuel

/-- The `reduce(callback, initialValue)` method.  The guard is the source's
`l === 0 && !initialValue`: JavaScript falsiness makes it fire both when no
initial value is supplied and when the supplied initial value is `0`.  The
seed is `initialValue != null ? initialValue : this.data[i++]`. -/
def Vector.reduce (v : Vector) (f : ℚ → ℚ → Nat → ℚ) (init : Option ℚ) : Except VErr ℚ :=
  if v.length = 0 ∧ (init = none ∨ init = some 0) then .error .emptyReduction
  else
    match init with
    | some x => .ok (redLoop f v.elems x 0 v.length)
    | none => .ok (redLoop f v.elems (v.atIdx 0) 1 (v.length - 1))

/-- The `range` construction for three numeric arguments
`range(start, step, end)`, embedded on its terminating region (`step > 0`,
or equal bounds; with `step ≤ 0` and distinct bounds the source loop does
not terminate and no value is denoted).  Descending ranges swap the bounds,
set the `backwards` flag, and fill `data[j] = end - i + start` for
`i = start + j * step`. -/
def Vector.range (start0 step0 end0 : ℚ) : Except VErr Vector :=
  let backwards := end0 - start0 < 0
  let s := if backwards then end0 else start0
  let e := if backwards then start0 else end0
  if step0 > e - s then .error .invalidRange
  else
    let n : Nat := ((e - s) / step0).ceil.toNat
    let d : List ℚ :=
      (List.range n).map (fun j =>
        if backwards then e - (s + step0 * j) + s else s + step0 * j)
    .ok ⟨ElemKind.f64, n, some d⟩

/-- The length invariant as the spec states it: whenever the buffer is
present, the `length` field equals its actual element count. -/
def lengthInv (v : Vector) : Prop :=
  ∀ l, v.data = some l → l.length = v.length

/-- Well-formedness of a reachable `Vector` state: the buffer contents
(empty when the buffer is absent) have exactly `length` elements.  This
subsumes `lengthInv` and additionally rules out the unreachable state of an
absent buffer with positive `length`. -/
def wellFormed (v : Vector) : Prop :=
  v.elems.length = v.length

instance (v : Vector) : Decidable (wellFormed v) := by
  unfold wellFormed; infer_instance

/-! ### The accelerated backend primitives, modelled from the spec

Modelled from the spec: the nblas backend (`axpy`, `scal`, `dot`, `nrm2`)
is an external native module, absent from the repository; its observable
contract is given in the spec's backend section (`scaledAdd`,
`scaleInPlace`, `dot`, `norm2`). -/

/-- Modelled from the spec: `scaledAdd(dst, src, factor)`: for all `i`,
`dst[i] += factor * src[i]`; requires equal lengths. -/
def axpySpec (factor : ℚ) (src dst : List ℚ) : List ℚ :=
  List.zipWith (fun d s => d + factor * s) dst src

/-- Modelled from the spec: `scaleInPlace(buf, scalar)`: for all `i`,
`buf[i] *= scalar`. -/
def scalSpec (s : ℚ) (buf : List ℚ) : List ℚ :=
  buf.map (fun x => x * s)

/-- Modelled from the spec: `dot(a, b)` returns `Σ a[i] * b[i]`. -/
def dotSpec (a b : List ℚ) : ℚ :=
  (List.zipWith (fun x y => x * y) a b).sum

/-- Modelled from the spec: `norm2(buf)` returns `sqrt(Σ buf[i]^2)`, with
the same abstracted square root `sq` as `magnitude`. -/
def nrm2Spec (sq : ℚ → ℚ) (buf : List ℚ) : ℚ :=
  sq ((buf.map (fun x => x * x)).sum)

/-! ### Helper lemmas about the loop embeddings -/

/-- A left fold that only accumulates additions is the initial value plus
the sum of the mapped list. -/
theorem foldl_add_eq (g : Nat → ℚ) :
    ∀ (l : List Nat) (a : ℚ), l.foldl (fun acc i => acc + g i) a = a + (l.map g).sum := by
  intro l
  induction l with
  | nil => intro a; simp
  | cons x xs ih =>
    intro a
    simp only [List.foldl_cons, List.map_cons, List.sum_cons, ih]
    ring

/-- Reading two buffers pointwise over their index range is `zipWith`. -/
theorem map_range_getD₂ (f : ℚ → ℚ → ℚ) :
    ∀ (d1 d2 : List ℚ), d1.length = d2.length →
      (List.range d1.length).map (fun i => f (d1.getD i 0) (d2.getD i 0)) =
        List.zipWith f d1 d2 := by
  intro d1
  induction d1 with
  | nil => intro d2 h; simp
  | cons x xs ih =>
    intro d2 h
    match d2 with
    | [] => simp at h
    | y :: ys =>
      simp only [List.length_cons, List.range_succ_eq_map, List.map_cons, List.map_map,
        List.zipWith_cons_cons, List.getD_cons_zero]
      have h' : xs.length = ys.length := by simpa using h
      simp only [Function.comp_def, Nat.succ_eq_add_one, List.getD_cons_succ]
      exact congrArg (f x y :: ·) (ih ys h')

/-- Reading one buffer pointwise over its index range is `map`. -/
theorem map_range_getD₁ (f : ℚ → ℚ) :
    ∀ (d : List ℚ), (List.range d.length).map (fun i => f (d.getD i 0)) = d.map f := by
  intro d
  induction d with
  | nil => simp
  | cons x xs ih =>
    simp only [List.length_cons, List.range_succ_eq_map, List.map_cons, List.map_map,
      List.getD_cons_zero]
    simp only [Function.comp_def, Nat.succ_eq_add_one, List.getD_cons_succ]
    exact congrArg (f x :: ·) ih

/-- Element read from a map over an index range. -/
theorem getD_map_range (g : Nat → ℚ) {i n : Nat} (h : i < n) :
    ((List.range n).map g).getD i 0 = g i := by
  rw [List.getD_eq_getElem?_getD, List.getElem?_map, List.getElem?_range h]
  rfl

/-- Element read from the `binOp` write loop, below the loop bound. -/
theorem binOpLoop_getD (len : Nat) (op : ℚ → ℚ → Nat → ℚ) (d1 d2 : List ℚ)
    {i : Nat} (h : i < len) :
    (binOpLoop len op d1 d2).getD i 0 = op (d1.getD i 0) (d2.getD i 0) i := by
  unfold binOpLoop
  rw [List.getD_append _ _ _ _ (by simpa using h)]
  exact getD_map_range _ h

/-- The `binOp` write loop preserves the buffer size when the buffer has
exactly the loop bound many elements. -/
theorem binOpLoop_length (len : Nat) (op : ℚ → ℚ → Nat → ℚ) (d1 d2 : List ℚ)
    (h : d1.length = len) :
    (binOpLoop len op d1 d2).length = len := by
  unfold binOpLoop
  simp [h]

/-- The `scale` loop preserves the buffer size. -/
theorem scaleLoop_length (len : Nat) (s : ℚ) (l : List ℚ) :
    (scaleLoop len s l).length = l.length := by
  unfold scaleLoop
  simp only [List.length_append, List.length_map, List.length_take, List.length_drop]
  omega

/-- The `equals` scan runs to the end when the buffers agree on the scanned
window. -/
theorem eqScan_full (d1 d2 : List ℚ) :
    ∀ (fuel i : Nat), (∀ j, i ≤ j → j < i + fuel → d1.getD j 0 = d2.getD j 0) →
      eqScan d1 d2 i fuel = i + fuel := by
  intro fuel
  induction fuel with
  | zero => intro i _; simp [eqScan]
  | succ n ih =>
    intro i h
    have hi : d1.getD i 0 = d2.getD i 0 := h i le_rfl (by omega)
    have := ih (i + 1) (fun j hj hj' => h j (by omega) (by omega))
    simp only [eqScan, if_pos hi, this]
    omega

/-- The result size and length field of writing a sub-buffer with
`TypedArray.prototype.set`. -/
theorem writeAt_length (buf src : List ℚ) (off : Nat) (h : off + src.length ≤ buf.length) :
    (writeAt buf off src).length = buf.length := by
  unfold writeAt
  simp only [List.length_append, List.length_take, List.length_drop]
  omega

/-- Element reads from a replicated-zero buffer are zero. -/
theorem getD_replicate_zero (n i : Nat) : (List.replicate n (0 : ℚ)).getD i 0 = 0 := by
  rw [List.getD_eq_getElem?_getD]
  rcases lt_or_le i n with h | h
  · simp [List.getElem?_replicate, h]
  · have hn : (List.replicate n (0 : ℚ))[i]? = none :=
      List.getElem?_eq_none (by simpa using h)
    simp [hn]

/-- Element read from a mapped list, below its length. -/
theorem getD_map_lt (f : ℚ → ℚ) (l : List ℚ) {i : Nat} (h : i < l.length) :
    (l.map f).getD i 0 = f (l.getD i 0) := by
  rw [List.getD_eq_getElem?_getD, List.getElem?_map, List.getElem?_eq_getElem h]
  rw [List.getD_eq_getElem?_getD, List.getElem?_eq_getElem h]
  rfl

/-- Copy construction `new Vector(v)` from a vector source: the combine of
a default-constructed vector with `v`. -/
theorem mkVector_vec (v : Vector) :
    mkVector (.vec v) =
      if v.length = 0 then emptyVector else ⟨v.kind, v.length, some v.elems⟩ := by
  simp only [mkVector, Vector.combine, emptyVector]
  by_cases h : v.length = 0
  · rw [if_pos h, if_pos h]
  · rw [if_neg h, if_neg h, if_pos trivial]

/-- The `binOp` method on equal non-zero lengths performs the write loop. -/
theorem binOp_of_ne (v w : Vector) (op : ℚ → ℚ → Nat → ℚ)
    (h1 : v.length = w.length) (h2 : v.length ≠ 0) :
    v.binOp w op = .ok { v with data := some (binOpLoop v.length op v.elems w.elems) } := by
  unfold Vector.binOp
  rw [if_neg (by omega), if_neg h2]

/-- The `binOp` method on equal zero lengths returns the receiver. -/
theorem binOp_of_zero (v w : Vector) (op : ℚ → ℚ → Nat → ℚ)
    (h1 : v.length = w.length) (h2 : v.length = 0) :
    v.binOp w op = .ok v := by
  unfold Vector.binOp
  rw [if_neg (by omega), if_pos h2]

/-! ### Claims -/

/-- C1: on equal-length buffers (a single buffer for scale and magnitude)
the modelled accelerated primitives and the in-repository fallback loops
produce equal results: `scaledAdd` with factor `+1`/`-1` equals the
element-wise `binOp` loop with `+`/`-`, `scaleInPlace` equals multiplying
every element by the scalar, the backend `dot` equals the sequential sum of
products, and `norm2` equals the square root of the looped sum of squares
(the same abstracted square root on equal radicands). -/
theorem c1_backend_fallback_agree (d1 d2 : List ℚ) (s : ℚ) (sq : ℚ → ℚ)
    (hlen : d1.length = d2.length) :
    axpySpec 1 d2 d1 = binOpLoop d1.length (fun a b _ => a + b) d1 d2 ∧
    axpySpec (-1) d2 d1 = binOpLoop d1.length (fun a b _ => a - b) d1 d2 ∧
    scalSpec s d1 = scaleLoop d1.length s d1 ∧
    dotSpec d1 d2 = dotLoop d1.length d1 d2 ∧
    nrm2Spec sq d1 = sq (sumsqLoop d1.length d1) := by
  have hb : ∀ f : ℚ → ℚ → ℚ,
      binOpLoop d1.length (fun a b _ => f a b) d1 d2 = List.zipWith f d1 d2 := by
    intro f
    unfold binOpLoop
    rw [List.drop_length, List.append_nil]
    exact map_range_getD₂ f d1 d2 hlen
  refine ⟨?_, ?_, ?_, ?_, ?_⟩
  · rw [hb (fun a b => a + b)]
    unfold axpySpec
    simp only [one_mul]
  · rw [hb (fun a b => a - b)]
    unfold axpySpec
    simp only [neg_one_mul, sub_eq_add_neg]
  · unfold scalSpec scaleLoop
    rw [List.take_length, List.drop_length, List.append_nil]
  · have h2 : dotLoop d1.length d1 d2 = (List.zipWith (fun x y => x * y) d1 d2).sum := by
      unfold dotLoop
      rw [foldl_add_eq (fun i => d1.getD i 0 * d2.getD i 0), zero_add,
        map_range_getD₂ (fun x y => x * y) d1 d2 hlen]
    rw [h2]; rfl
  · have h1 : sumsqLoop d1.length d1 = (d1.map (fun x => x * x)).sum := by
      unfold sumsqLoop
      rw [foldl_add_eq (fun i => d1.getD i 0 * d1.getD i 0), zero_add,
        map_range_getD₁ (fun x => x * x) d1]
    rw [h1]; rfl

/-- Witness for C1 at concrete buffers. -/
theorem c1_witness :
    ([(1 : ℚ), 2].length = [(3 : ℚ), 4].length) ∧
    (axpySpec 1 [(3 : ℚ), 4] [(1 : ℚ), 2] =
        binOpLoop [(1 : ℚ), 2].length (fun a b _ => a + b) [(1 : ℚ), 2] [(3 : ℚ), 4] ∧
      axpySpec (-1) [(3 : ℚ), 4] [(1 : ℚ), 2] =
        binOpLoop [(1 : ℚ), 2].length (fun a b _ => a - b) [(1 : ℚ), 2] [(3 : ℚ), 4] ∧
      scalSpec 2 [(1 : ℚ), 2] = scaleLoop [(1 : ℚ), 2].length 2 [(1 : ℚ), 2] ∧
      dotSpec [(1 : ℚ), 2] [(3 : ℚ), 4] =
        dotLoop [(1 : ℚ), 2].length [(1 : ℚ), 2] [(3 : ℚ), 4] ∧
      nrm2Spec id [(1 : ℚ), 2] = id (sumsqLoop [(1 : ℚ), 2].length [(1 : ℚ), 2])) :=
  ⟨rfl, c1_backend_fallback_agree [(1 : ℚ), 2] [(3 : ℚ), 4] 2 id rfl⟩

/-- C5: `get` fails with the out-of-bounds error for every negative,
too-large, or non-finite index on every vector, and the `w` accessor on a
length-3 vector fails with the same bounds error as `get(3)`. -/
theorem c5_get_bounds_errors :
    (∀ (v : Vector) (i : JSNum),
        ((∃ q, i = .fin q ∧ (q < 0 ∨ (v.length : ℚ) ≤ q)) ∨ i.isFiniteJ = false) →
        v.get i = .error .outOfBounds) ∧
    (∀ v : Vector, v.length = 3 →
        v.wGet = v.get (.fin 3) ∧ v.get (.fin 3) = .error .outOfBounds) := by
  constructor
  · rintro v i (⟨q, rfl, hq⟩ | hnf)
    · have hc : v.check (.fin q) = .error .outOfBounds := by
        show (if q < 0 ∨ q > (v.length : ℚ) - 1 then (.error .outOfBounds : Except VErr Unit)
          else .ok ()) = .error .outOfBounds
        rw [if_pos]
        rcases hq with h | h
        · exact Or.inl h
        · right; linarith
      simp [Vector.get, hc]
    · cases i with
      | fin q => simp [JSNum.isFiniteJ] at hnf
      | posInf => simp [Vector.get, Vector.check]
      | negInf => simp [Vector.get, Vector.check]
      | nan => simp [Vector.get, Vector.check]
  · intro v hv
    refine ⟨rfl, ?_⟩
    have hc : v.check (.fin 3) = .error .outOfBounds := by
      show (if (3 : ℚ) < 0 ∨ (3 : ℚ) > (v.length : ℚ) - 1 then (.error .outOfBounds : Except VErr Unit)
        else .ok ()) = .error .outOfBounds
      rw [if_pos]
      right
      rw [hv]
      norm_num
    simp [Vector.get, hc]

/-- Witness for C5: a non-finite index on a concrete vector, and the `w`
accessor on a concrete length-3 vector. -/
theorem c5_witness :
    (mkVector (.arr [1, 2, 3])).get .nan = .error .outOfBounds ∧
    (mkVector (.arr [1, 2, 3])).length = 3 ∧
    ((mkVector (.arr [1, 2, 3])).wGet = (mkVector (.arr [1, 2, 3])).get (.fin 3) ∧
      (mkVector (.arr [1, 2, 3])).get (.fin 3) = .error .outOfBounds) :=
  ⟨c5_get_bounds_errors.1 (mkVector (.arr [1, 2, 3])) .nan (Or.inr rfl),
   rfl,
   c5_get_bounds_errors.2 (mkVector (.arr [1, 2, 3])) rfl⟩

/-- C4: for equal-length vectors with integer-valued elements, static
`add(a, b)` followed by static `subtract(result, b)` yields a vector that
is element-wise equal (via `equals`) to the original `a`.  (Over the exact
rational model the integrality hypothesis is not even needed; it is kept as
the claim states it.) -/
theorem c4_add_then_subtract_restores (a b : Vector)
    (hlen : a.length = b.length) (hint : ∀ x ∈ a.elems, x.den = 1) :
    ∃ c d, Vector.addS a b = .ok c ∧ Vector.subS c b = .ok d ∧ d.equals a = true := by
  rcases Nat.eq_zero_or_pos a.length with h0 | hpos
  · have hb0 : b.length = 0 := by omega
    have hadd : Vector.addS a b = .ok emptyVector := by
      unfold Vector.addS Vector.add
      rw [mkVector_vec, if_pos h0]
      exact binOp_of_zero emptyVector b _ (by show (0 : ℕ) = b.length; omega) rfl
    have hsub : Vector.subS emptyVector b = .ok emptyVector := by
      unfold Vector.subS Vector.sub
      rw [mkVector_vec, if_pos (show emptyVector.length = 0 from rfl)]
      exact binOp_of_zero emptyVector b _ (by show (0 : ℕ) = b.length; omega) rfl
    refine ⟨emptyVector, emptyVector, hadd, hsub, ?_⟩
    unfold Vector.equals
    rw [if_neg (by show ¬((0 : ℕ) ≠ a.length); omega)]
    rfl
  · have hadd : Vector.addS a b =
        .ok ⟨a.kind, a.length,
          some (binOpLoop a.length (fun x y _ => x + y) a.elems b.elems)⟩ := by
      unfold Vector.addS Vector.add
      rw [mkVector_vec, if_neg (by omega)]
      exact binOp_of_ne ⟨a.kind, a.length, some a.elems⟩ b _ hlen
        (by show a.length ≠ 0; omega)
    have hsub : Vector.subS
        (⟨a.kind, a.length,
          some (binOpLoop a.length (fun x y _ => x + y) a.elems b.elems)⟩ : Vector) b =
        .ok ⟨a.kind, a.length,
          some (binOpLoop a.length (fun x y _ => x - y)
            (binOpLoop a.length (fun x y _ => x + y) a.elems b.elems) b.elems)⟩ := by
      unfold Vector.subS Vector.sub
      rw [mkVector_vec, if_neg (by show ¬(a.length = 0); omega)]
      exact binOp_of_ne _ b _ hlen (by show a.length ≠ 0; omega)
    refine ⟨_, _, hadd, hsub, ?_⟩
    unfold Vector.equals
    rw [if_neg (by show ¬(a.length ≠ a.length); omega)]
    have hpt : ∀ j, 0 ≤ j → j < 0 + a.length →
        (binOpLoop a.length (fun x y _ => x - y)
          (binOpLoop a.length (fun x y _ => x + y) a.elems b.elems) b.elems).getD j 0 =
        a.elems.getD j 0 := by
      intro j _ hj
      have hj' : j < a.length := by omega
      rw [binOpLoop_getD a.length _ _ b.elems hj',
        binOpLoop_getD a.length _ a.elems b.elems hj']
      exact add_sub_cancel_right _ _
    have hscan := eqScan_full
      (binOpLoop a.length (fun x y _ => x - y)
        (binOpLoop a.length (fun x y _ => x + y) a.elems b.elems) b.elems)
      a.elems a.length 0 (fun j hj hj' => hpt j hj hj')
    show (eqScan
      (binOpLoop a.length (fun x y _ => x - y)
        (binOpLoop a.length (fun x y _ => x + y) a.elems b.elems) b.elems)
      a.elems 0 a.length == a.length) = true
    rw [hscan]
    simp

/-- Witness for C4 at concrete integer-valued vectors. -/
theorem c4_witness :
    ((mkVector (.arr [1, 2])).length = (mkVector (.arr [3, 4])).length) ∧
    (∀ x ∈ (mkVector (.arr [1, 2])).elems, x.den = 1) ∧
    (∃ c d, Vector.addS (mkVector (.arr [1, 2])) (mkVector (.arr [3, 4])) = .ok c ∧
      Vector.subS c (mkVector (.arr [3, 4])) = .ok d ∧
      d.equals (mkVector (.arr [1, 2])) = true) := by
  have hden : ∀ x ∈ (mkVector (.arr [1, 2])).elems, x.den = 1 := by
    simp [mkVector, Vector.elems]
  exact ⟨rfl, hden, c4_add_then_subtract_restores _ _ rfl hden⟩

/-- C7: for equal-length non-empty vectors with a non-zero `dot(b, b)`,
`a.project(b)` returns the argument object `b` itself (`Slot.argument`),
with `b`'s buffer scaled in place by `dot(a, b) / dot(b, b)`, while `a` is
returned unchanged in the receiver position. -/
theorem c7_project_scales_argument_in_place (a b : Vector)
    (hlen : a.length = b.length) (hne : a.length ≠ 0) (hwf : wellFormed b)
    (hd : dotLoop b.length b.elems b.elems ≠ 0) :
    ∃ b', a.project b = .ok (a, b', Slot.argument) ∧
      b'.length = b.length ∧
      ∀ i, i < b.length → b'.elems.getD i 0 =
        b.elems.getD i 0 *
          (dotLoop a.length a.elems b.elems / dotLoop b.length b.elems b.elems) := by
  have hda : a.dot b = .ok (dotLoop a.length a.elems b.elems) := by
    unfold Vector.dot
    rw [if_neg (by omega)]
  have hdb : b.dot b = .ok (dotLoop b.length b.elems b.elems) := by
    unfold Vector.dot
    rw [if_neg (by simp)]
  refine ⟨b.scale (dotLoop a.length a.elems b.elems / dotLoop b.length b.elems b.elems),
    ?_, rfl, ?_⟩
  · unfold Vector.project
    rw [hda, hdb]
    rfl
  · intro i hi
    cases hbd : b.data with
    | none =>
      exfalso
      have hv' : b.elems.length = b.length := hwf
      unfold Vector.elems at hv'
      rw [hbd] at hv'
      simp at hv'
      omega
    | some l =>
      have hl : l.length = b.length := by
        have hv' : b.elems.length = b.length := hwf
        unfold Vector.elems at hv'
        rw [hbd] at hv'
        simpa using hv'
      show (((b.data.map (scaleLoop b.length _)).getD []).getD i 0) = (b.data.getD []).getD i 0 * _
      rw [hbd]
      simp only [Option.map_some', Option.getD_some]
      unfold scaleLoop
      rw [← hl, List.take_length, List.drop_length, List.append_nil]
      exact getD_map_lt _ l (hl ▸ hi)

/-- Witness for C7 at concrete vectors. -/
theorem c7_witness :
    ((mkVector (.arr [2])).length = (mkVector (.arr [1])).length) ∧
    ((mkVector (.arr [2])).length ≠ 0) ∧
    wellFormed (mkVector (.arr [1])) ∧
    (dotLoop (mkVector (.arr [1])).length (mkVector (.arr [1])).elems
        (mkVector (.arr [1])).elems ≠ 0) ∧
    (∃ b', (mkVector (.arr [2])).project (mkVector (.arr [1])) =
        .ok (mkVector (.arr [2]), b', Slot.argument) ∧
      b'.length = (mkVector (.arr [1])).length ∧
      ∀ i, i < (mkVector (.arr [1])).length → b'.elems.getD i 0 =
        (mkVector (.arr [1])).elems.getD i 0 *
          (dotLoop (mkVector (.arr [2])).length (mkVector (.arr [2])).elems
              (mkVector (.arr [1])).elems /
            dotLoop (mkVector (.arr [1])).length (mkVector (.arr [1])).elems
              (mkVector (.arr [1])).elems)) := by
  have hd : dotLoop (mkVector (.arr [1])).length (mkVector (.arr [1])).elems
      (mkVector (.arr [1])).elems ≠ 0 := by
    simp [dotLoop, mkVector, Vector.elems, List.range_succ]
  exact ⟨rfl, by decide, by decide, hd,
    c7_project_scales_argument_in_place _ _ rfl (by decide) (by decide) hd⟩

/-- C8: `magnitude(zeros(n))` is exactly `0` for every `n ≥ 0` (using only
that the square root of `0` is `0`), and every length-0 vector's
`magnitude` is `0` for an arbitrary square-root kernel — the zero-length
result does not depend on either backend path. -/
theorem c8_magnitude_of_zeros :
    (∀ n : ℤ, 0 ≤ n → ∀ sq : ℚ → ℚ, sq 0 = 0 →
      ∃ v, Vector.zeros n ElemKind.f64 = .ok v ∧ Vector.magnitude sq v = 0) ∧
    (∀ (v : Vector) (sq : ℚ → ℚ), v.length = 0 → Vector.magnitude sq v = 0) := by
  constructor
  · intro n hn sq hsq
    rcases eq_or_lt_of_le hn with h0 | hpos
    · refine ⟨emptyVector, ?_, ?_⟩
      · unfold Vector.zeros Vector.fill
        rw [if_neg (by omega), if_pos (by omega)]
      · unfold Vector.magnitude
        rw [if_pos (show emptyVector.length = 0 from rfl)]
    · refine ⟨⟨ElemKind.f64, n.toNat, some (List.replicate n.toNat 0)⟩, ?_, ?_⟩
      · unfold Vector.zeros Vector.fill
        rw [if_neg (by omega), if_neg (by omega)]
      · unfold Vector.magnitude
        rw [if_neg (by simp only []; omega)]
        have hs : sumsqLoop n.toNat
            (Vector.elems ⟨ElemKind.f64, n.toNat, some (List.replicate n.toNat 0)⟩) = 0 := by
          unfold sumsqLoop Vector.elems
          simp only [Option.getD_some]
          rw [foldl_add_eq (fun i =>
            (List.replicate n.toNat (0 : ℚ)).getD i 0 *
              (List.replicate n.toNat (0 : ℚ)).getD i 0), zero_add]
          simp [getD_replicate_zero]
        rw [hs]
        exact hsq
  · intro v sq hv
    unfold Vector.magnitude
    rw [if_pos hv]

/-- Witness for C8 at `n = 2` with the identity square-root kernel, and a
concrete length-0 vector. -/
theorem c8_witness :
    ((0 : ℤ) ≤ 2) ∧ (id (0 : ℚ) = 0) ∧
    (∃ v, Vector.zeros 2 ElemKind.f64 = .ok v ∧ Vector.magnitude id v = 0) ∧
    (emptyVector.length = 0) ∧ (Vector.magnitude id emptyVector = 0) :=
  ⟨by decide, rfl, c8_magnitude_of_zeros.1 2 (by decide) id rfl, rfl,
   c8_magnitude_of_zeros.2 emptyVector id rfl⟩

/-- C9: the buffer/length consistency invariant.  `wellFormed` (stored
element count equals the `length` field, an absent buffer counting as
empty) implies the spec's `lengthInv`, holds for construction from every
recognized source (with a matrix-like source supplying `rows * cols`
elements), and is preserved by `combine`, `push`, `binOp`, `add`,
`subtract`, `scale` and `set`. -/
theorem c9_length_buffer_invariant :
    (∀ v, wellFormed v → lengthInv v) ∧
    wellFormed (mkVector .noArg) ∧
    (∀ v, wellFormed v → wellFormed (mkVector (.vec v))) ∧
    (∀ k r c dl, dl.length = r * c → wellFormed (mkVector (.mat k r c dl))) ∧
    (∀ l, wellFormed (mkVector (.arr l))) ∧
    (∀ k l, wellFormed (mkVector (.buf k l))) ∧
    (∀ v w, wellFormed v → wellFormed w → wellFormed (v.combine w)) ∧
    (∀ v x, wellFormed v → wellFormed (v.push x)) ∧
    (∀ v w op c, wellFormed v → v.binOp w op = .ok c → wellFormed c) ∧
    (∀ v w c, wellFormed v → v.add w = .ok c → wellFormed c) ∧
    (∀ v w c, wellFormed v → v.sub w = .ok c → wellFormed c) ∧
    (∀ v s, wellFormed v → wellFormed (v.scale s)) ∧
    (∀ v i x c, wellFormed v → v.setIdx i x = .ok c → wellFormed c) := by
  have hcomb : ∀ v w, wellFormed v → wellFormed w → wellFormed (v.combine w) := by
    intro v w hv hw
    unfold Vector.combine
    by_cases hw0 : w.length = 0
    · rw [if_pos hw0]; exact hv
    · rw [if_neg hw0]
      by_cases hv0 : v.length = 0
      · rw [if_pos hv0]
        exact hw
      · rw [if_neg hv0]
        have hv' : v.elems.length = v.length := hv
        have hw' : w.elems.length = w.length := hw
        have h1 : (writeAt (List.replicate (v.length + w.length) (0 : ℚ)) 0 v.elems).length =
            v.length + w.length := by
          rw [writeAt_length]
          · simp
          · simp only [List.length_replicate]; omega
        have h2 := writeAt_length
          (writeAt (List.replicate (v.length + w.length) (0 : ℚ)) 0 v.elems)
          w.elems v.length (by rw [h1]; omega)
        show (writeAt (writeAt (List.replicate (v.length + w.length) 0) 0 v.elems)
          v.length w.elems).length = v.length + w.length
        rw [h2, h1]
  have hbin : ∀ v w op c, wellFormed v → v.binOp w op = .ok c → wellFormed c := by
    intro v w op c hv h
    unfold Vector.binOp at h
    by_cases h1 : v.length ≠ w.length
    · rw [if_pos h1] at h
      exact Except.noConfusion h
    · by_cases h2 : v.length = 0
      · rw [if_neg h1, if_pos h2] at h
        injection h with h3
        exact h3 ▸ hv
      · rw [if_neg h1, if_neg h2] at h
        injection h with h3
        subst h3
        show (binOpLoop v.length op v.elems w.elems).length = v.length
        exact binOpLoop_length _ _ _ _ hv
  have hscale : ∀ v s, wellFormed v → wellFormed (v.scale s) := by
    intro v s hv
    have hv' : v.elems.length = v.length := hv
    cases hbd : v.data with
    | none =>
      show ((v.data.map (scaleLoop v.length s)).getD []).length = v.length
      rw [hbd]
      simp only [Option.map_none', Option.getD_none]
      unfold Vector.elems at hv'
      rw [hbd] at hv'
      simpa using hv'
    | some l =>
      show ((v.data.map (scaleLoop v.length s)).getD []).length = v.length
      rw [hbd]
      simp only [Option.map_some', Option.getD_some]
      rw [scaleLoop_length]
      unfold Vector.elems at hv'
      rw [hbd] at hv'
      simpa using hv'
  have harr : ∀ l : List ℚ, wellFormed (mkVector (.arr l)) := fun _ => rfl
  refine ⟨?_, rfl, ?_, ?_, harr, fun _ _ => rfl, hcomb, ?_, hbin, ?_, ?_, hscale, ?_⟩
  · intro v hv l hl
    have hv' : v.elems.length = v.length := hv
    unfold Vector.elems at hv'
    rw [hl] at hv'
    simpa using hv'
  · intro v hv
    exact hcomb emptyVector v rfl hv
  · intro k r c dl hdl
    exact hdl
  · intro v x hv
    exact hcomb v (mkVector (.arr [x])) hv (harr [x])
  · intro v w c hv h
    exact hbin v w _ c hv h
  · intro v w c hv h
    exact hbin v w _ c hv h
  · intro v i x c hv h
    unfold Vector.setIdx at h
    cases hchk : v.check i with
    | error e =>
      rw [hchk] at h
      exact Except.noConfusion h
    | ok u =>
      rw [hchk] at h
      cases i with
      | fin q =>
        replace h : (if q.den = 1 ∧ 0 ≤ q.num then
            Except.ok { v with data := v.data.map (fun l => l.set q.num.toNat x) }
          else Except.ok v) = Except.ok c := h
        by_cases hq : q.den = 1 ∧ 0 ≤ q.num
        · rw [if_pos hq] at h
          injection h with h3
          subst h3
          have hv' : v.elems.length = v.length := hv
          cases hbd : v.data with
          | none =>
            show ((Option.map (fun l => l.set q.num.toNat x)
              (none : Option (List ℚ))).getD []).length = v.length
            simp only [Option.map_none', Option.getD_none]
            unfold Vector.elems at hv'
            rw [hbd] at hv'
            simpa using hv'
          | some l =>
            show ((Option.map (fun l2 => l2.set q.num.toNat x) (some l)).getD []).length = v.length
            simp only [Option.map_some', Option.getD_some, List.length_set]
            unfold Vector.elems at hv'
            rw [hbd] at hv'
            simpa using hv'
        · rw [if_neg hq] at h
          injection h with h3
          exact h3 ▸ hv
      | posInf =>
        replace h : Except.ok v = Except.ok c := h
        injection h with h3
        exact h3 ▸ hv
      | negInf =>
        replace h : Except.ok v = Except.ok c := h
        injection h with h3
        exact h3 ▸ hv
      | nan =>
        replace h : Except.ok v = Except.ok c := h
        injection h with h3
        exact h3 ▸ hv

/-- Witness for C9 at concrete vectors and operations. -/
theorem c9_witness :
    wellFormed (mkVector (.arr [1, 2])) ∧
    lengthInv (mkVector (.arr [1, 2])) ∧
    wellFormed ((mkVector (.arr [1, 2])).combine (mkVector (.arr [3]))) ∧
    wellFormed ((mkVector (.arr [1, 2])).push 5) ∧
    wellFormed ((mkVector (.arr [1, 2])).scale 2) := by
  obtain ⟨hinv, hnoarg, hvec, hmat, harr, hbuf, hcomb, hpush, hbin, hadd, hsub, hscale, hset⟩ :=
    c9_length_buffer_invariant
  have h1 : wellFormed (mkVector (.arr [1, 2])) := harr [1, 2]
  exact ⟨h1, hinv _ h1, hcomb _ _ h1 (harr [3]), hpush _ 5 h1, hscale _ 2 h1⟩

/-- C2: the guard of `reduce` is `l === 0 && !initialValue`, so an empty
vector with the supplied initial value `0` (falsy) throws the
empty-reduction error, although the claim and the spec say a supplied
initial value — including `0` — prevents the failure.  The companion
conjuncts show the surrounding behaviour is as claimed: a non-zero initial
value on the empty vector, and an initial value of `0` on a non-empty
vector, both fold normally. -/
theorem c2_reduce_zero_initial_value_bug :
    Vector.reduce emptyVector (fun a v _ => a + v) (some 0) = .error .emptyReduction ∧
    Vector.reduce emptyVector (fun a v _ => a + v) (some 5) = .ok 5 ∧
    Vector.reduce (mkVector (.arr [1, 2, 3])) (fun a v _ => a + v) (some 0) = .ok 6 := by
  refine ⟨?_, ?_, ?_⟩
  · simp [Vector.reduce, emptyVector]
  · simp [Vector.reduce, emptyVector, redLoop]
  · simp [Vector.reduce, mkVector, Vector.elems, Vector.atIdx, redLoop]
    norm_num

/-- C3: `equals(a, a)` is `true` for every vector, and `equals(a, b)` is
`false` whenever the lengths differ. -/
theorem c3_equals_refl_and_length_mismatch (v w : Vector) :
    v.equals v = true ∧ (v.length ≠ w.length → v.equals w = false) := by
  constructor
  · unfold Vector.equals
    rw [if_neg (by simp)]
    have h := eqScan_full v.elems v.elems v.length 0 (fun j _ _ => rfl)
    simp [h]
  · intro h
    unfold Vector.equals
    rw [if_pos h]

/-- Witness for C3 at concrete vectors. -/
theorem c3_witness :
    ((mkVector (.arr [1, 2])).equals (mkVector (.arr [1, 2])) = true) ∧
    ((mkVector (.arr [1, 2])).length ≠ (mkVector (.arr [7])).length) ∧
    ((mkVector (.arr [1, 2])).equals (mkVector (.arr [7])) = false) :=
  ⟨(c3_equals_refl_and_length_mismatch (mkVector (.arr [1, 2])) (mkVector (.arr [7]))).1,
   by decide,
   (c3_equals_refl_and_length_mismatch (mkVector (.arr [1, 2])) (mkVector (.arr [7]))).2
     (by decide)⟩

/-- C6: `range(0, 0.5, 2)` yields the four elements `[0, 0.5, 1, 1.5]`, and
the descending `range(2, 0.5, 0)` yields `[2, 1.5, 1, 0.5]` by the
`end - i + start` inversion formula, which differs from naively reversing
the ascending fill. -/
theorem c6_range_ascending_descending :
    Vector.range 0 (1/2) 2 = .ok ⟨ElemKind.f64, 4, some [0, 1/2, 1, 3/2]⟩ ∧
    Vector.range 2 (1/2) 0 = .ok ⟨ElemKind.f64, 4, some [2, 3/2, 1, 1/2]⟩ ∧
    [(2 : ℚ), 3/2, 1, 1/2] ≠ [(0 : ℚ), 1/2, 1, 3/2].reverse := by
  have hc : ((2:ℚ) - 0) / (1 / 2) = 4 := by norm_num
  have hceil : ((4:ℚ)).ceil = 4 := by norm_num [Rat.ceil]
  have hr4 : List.range 4 = [0, 1, 2, 3] := rfl
  have ht : (4 : ℤ).toNat = 4 := rfl
  refine ⟨?_, ?_, ?_⟩
  · simp only [Vector.range]
    norm_num [hc, hceil, hr4, ht]
  · simp only [Vector.range]
    norm_num [hc, hceil, hr4, ht]
  · intro h
    have := congrArg (fun l => List.getD l 0 (0:ℚ)) h
    norm_num at this

/-- C10: on the length-2 vector `[1, 2]`, the fractional index `0.5` lies
strictly between the bounds, so `check` passes and `get` raises no error,
although the read addresses no stored element (it returns `undefined`,
modelled as `none`). -/
theorem c10_fractional_index_passes_check :
    (mkVector (.arr [1, 2])).check (.fin (1/2)) = .ok () ∧
    (mkVector (.arr [1, 2])).get (.fin (1/2)) = .ok none := by
  have hden : ((1:ℚ)/2).den = 2 := by norm_num [Rat.den]
  have hc : (mkVector (.arr [1, 2])).check (.fin (1/2)) = .ok () := by
    simp only [Vector.check, mkVector]
    norm_num
  refine ⟨hc, ?_⟩
  simp only [Vector.get, hc, Vector.readIdx, hden]
  norm_num

end Vectorious
